import Mathlib

/-!
Verification development for the rtc-file-share repository.

The development shallowly embeds the parts of the code that the checked
properties are about:

* namespace Chunked — the manual-signaling application (sendFile with its
  readSlice/onload loop and the data-channel onmessage receiver), which
  implements the chunked file-transfer protocol with CHUNK_SIZE = 16384;
* namespace Server — the signaling relay server (registry of peers,
  message forwarding, disconnect broadcast, malformed-message handling);
* namespace PeerJS — the usePeerJS hook (simultaneous-connection
  tie-break on the incoming-connection event);
* namespace WebRTC — the useWebRTC hook (offer/answer/candidate handling,
  connection list and status derivation, file sending guards, and the
  incoming-data metadata handling).

Machine integers do not overflow in any modelled computation, so byte
values and sizes are plain naturals; asynchronous transport operations
(create or apply a session description, add a network candidate) are
modelled by their observable effect on the record state, the transport
engine itself being the black box the specification excludes.
-/

namespace Chunked

/-- Bytes are modelled as naturals; only lengths and equality of byte
lists matter to the protocol. -/
abbrev Byte := Nat

/-- Fixed chunk size used by the sender (16KB, from part_000). -/
def CHUNK_SIZE : Nat := 16384

/-- Messages travelling over the data channel: the JSON control messages
of kind file-meta and file-end, and raw binary chunk frames. -/
inductive Msg where
  | fileMeta (name : String) (size : Nat)
  | chunk (data : List Byte)
  | fileEnd (name : String)
deriving DecidableEq, Repr

/-- Model of the readSlice / reader.onload loop of sendFile: slice the
file at the current offset, send the slice as a binary message, advance
the offset by the number of bytes read, and either continue (offset
still below file.size) or send the terminal file-end control message. -/
def readSliceLoop (name : String) (file : List Byte) (offset : Nat) : List Msg :=
  if h : offset + ((file.drop offset).take CHUNK_SIZE).length < file.length then
    Msg.chunk ((file.drop offset).take CHUNK_SIZE)
      :: readSliceLoop name file (offset + ((file.drop offset).take CHUNK_SIZE).length)
  else
    [Msg.chunk ((file.drop offset).take CHUNK_SIZE), Msg.fileEnd name]
termination_by file.length - offset
decreasing_by
  simp only [List.length_take, List.length_drop, CHUNK_SIZE] at *
  omega

/-- sendFile from part_000: one file-meta control message carrying the
name and size, then the chunk loop starting at offset 0. -/
def sendFile (name : String) (file : List Byte) : List Msg :=
  Msg.fileMeta name file.length :: readSliceLoop name file 0

/-- Mathematical characterization of the slices the loop produces: split
a byte list into consecutive pieces of CHUNK_SIZE bytes (the final piece
possibly shorter). -/
def splitChunks (l : List Byte) : List (List Byte) :=
  if CHUNK_SIZE < l.length then
    l.take CHUNK_SIZE :: splitChunks (l.drop CHUNK_SIZE)
  else
    [l]
termination_by l.length
decreasing_by
  simp only [List.length_drop, CHUNK_SIZE] at *
  omega

/-- In-flight transfer state shown by the receiver (the progress field,
a display-only percentage, is omitted). -/
structure FileTransfer where
  name : String
  size : Nat
  received : Nat
deriving DecidableEq, Repr

/-- Receiver-side state of part_000: the chunk buffer, the optional
in-flight transfer, and the finalized received file. -/
structure RecvState where
  receivedBuffer : List (List Byte)
  fileTransfer : Option FileTransfer
  receivedFile : Option (String × List Byte)
deriving DecidableEq, Repr

/-- Initial receiver state. -/
def initRecvState : RecvState :=
  { receivedBuffer := [], fileTransfer := none, receivedFile := none }

/-- channel.onmessage of part_000: a file-meta message resets the buffer
and opens a transfer session; a file-end message concatenates the buffer
into the final artifact and clears the session; a binary message is
appended to the buffer and counted into the session when one is open. -/
def onMessage (st : RecvState) (m : Msg) : RecvState :=
  match m with
  | Msg.fileMeta name size =>
      { st with receivedBuffer := [],
                fileTransfer := some { name := name, size := size, received := 0 } }
  | Msg.fileEnd name =>
      { st with receivedFile := some (name, st.receivedBuffer.flatten),
                fileTransfer := none,
                receivedBuffer := [] }
  | Msg.chunk data =>
      { st with receivedBuffer := st.receivedBuffer ++ [data],
                fileTransfer :=
                  match st.fileTransfer with
                  | none => none
                  | some t => some { t with received := t.received + data.length } }

/-- Feed a list of messages through the receiver in order. -/
def runRecv (st : RecvState) (ms : List Msg) : RecvState :=
  ms.foldl onMessage st

end Chunked

namespace Server

/-- The three signaling kinds the relay forwards. -/
inductive MsgKind where
  | offerKind
  | answerKind
  | iceCandidateKind
deriving DecidableEq, Repr

/-- Messages a client sends to the relay hub, as parsed from JSON: the
three forwarded signaling kinds carry a target identifier and the
session-description or candidate payload; list-peers and broadcast are
service requests; any other type string is unknown. -/
inductive ClientMsg where
  | signal (kind : MsgKind) (targetPeerId : String) (payload : String)
  | listPeers
  | broadcast (data : String)
  | unknown (t : String)
deriving DecidableEq, Repr

/-- Messages the relay hub sends to a client. A forwarded signal keeps
all fields of the original message and gains fromPeerId. -/
inductive ServerMsg where
  | peerIdMsg (peerId : String)
  | forward (kind : MsgKind) (targetPeerId : String) (payload : String) (fromPeerId : String)
  | errorMsg (message : String)
  | peerList (peers : List String)
  | broadcastMsg (fromPeerId : String) (data : String)
  | peerDisconnected (peerId : String)
deriving DecidableEq, Repr

/-- The peers map of the server: peerId to the link, of which only the
readyState === OPEN test is observed (modelled as a Bool). Entries are
kept in insertion order as a JS Map does. -/
abbrev Registry := List (String × Bool)

/-- The ws message handler of the server, after successful JSON parsing.
It returns the list of (recipient, message) sends it performs and the
resulting registry. For offer, answer and ice-candidate: look up the
target; if present with an open link, forward the message extended with
fromPeerId; otherwise reply to the sender with an error naming the
target. For list-peers: reply with all registered identifiers except the
requester. For broadcast: send to every other open peer. Unknown types
are only logged. The registry is never modified by this handler. -/
def handleMessage (reg : Registry) (fromId : String) (msg : ClientMsg) :
    List (String × ServerMsg) × Registry :=
  match msg with
  | ClientMsg.signal kind target payload =>
      match List.lookup target reg with
      | some true =>
          ([(target, ServerMsg.forward kind target payload fromId)], reg)
      | some false =>
          ([(fromId, ServerMsg.errorMsg ("Peer " ++ target ++ " not available"))], reg)
      | none =>
          ([(fromId, ServerMsg.errorMsg ("Peer " ++ target ++ " not available"))], reg)
  | ClientMsg.listPeers =>
      ([(fromId, ServerMsg.peerList ((reg.map Prod.fst).filter (fun id => id != fromId)))], reg)
  | ClientMsg.broadcast data =>
      ((reg.filter (fun p => p.1 != fromId && p.2)).map
        (fun p => (p.1, ServerMsg.broadcastMsg fromId data)), reg)
  | ClientMsg.unknown _ => ([], reg)

/-- The raw ws message handler: JSON parsing is modelled by an Option,
none standing for a message that failed to parse. The final Bool records
whether the handler closes the link of the sender; no branch does. On a
parse failure the server replies to the sender with the error envelope
and touches nothing else (the catch branch of the source). -/
def handleRawMessage (reg : Registry) (fromId : String) (parsed : Option ClientMsg) :
    List (String × ServerMsg) × Registry × Bool :=
  match parsed with
  | none => ([(fromId, ServerMsg.errorMsg "Invalid message format")], reg, false)
  | some m =>
      let r := handleMessage reg fromId m
      (r.1, r.2, false)

/-- The ws close handler of the server: delete the departing peer from
the registry, then send every remaining open peer a peer-disconnected
message naming it. Returns the new registry and the sends. -/
def handleClose (reg : Registry) (departing : String) :
    Registry × List (String × ServerMsg) :=
  let reg2 := reg.filter (fun p => p.1 != departing)
  (reg2, (reg2.filter (fun p => p.2)).map
    (fun p => (p.1, ServerMsg.peerDisconnected departing)))

end Server

namespace PeerJS

/-- Direction of a peer connection record: dialed out by this endpoint
or accepted from the remote endpoint. -/
inductive Dir where
  | outgoing
  | incoming
deriving DecidableEq, Repr

/-- The connectionsRef map of the usePeerJS hook: remote peer id to the
record of the live connection, here reduced to its direction. Insertion
order is kept as a JS Map does. -/
abbrev ConnMap := List (String × Dir)

/-- JS string comparison (id < conn.peer), lexicographic on the
characters of the two identifiers. -/
def strLt (a b : String) : Prop := a.data < b.data

instance : Decidable (strLt a b) := by unfold strLt; infer_instance

/-- The newPeer connection handler of usePeerJS for an incoming
connection from remote, together with the registration the subsequent
open event of the accepted connection performs. The result pairs the new
map with the directions of the connections the handler closes: if a
record for remote already exists and the own id sorts smaller, the
incoming connection is closed and the map is untouched; if the own id
sorts larger, the existing record is closed and deleted and the incoming
connection replaces it; with no existing record the incoming connection
is simply accepted and registered. -/
def onIncomingConnection (myId : String) (conns : ConnMap) (remote : String) :
    ConnMap × List Dir :=
  match List.lookup remote conns with
  | some existing =>
      if strLt myId remote then
        (conns, [Dir.incoming])
      else
        ((conns.filter (fun p => p.1 != remote)) ++ [(remote, Dir.incoming)], [existing])
  | none => (conns ++ [(remote, Dir.incoming)], [])

/-- connectToPeer of usePeerJS together with the registration the open
event of the dialed connection performs: a no-op when a record already
exists or when dialing oneself, otherwise the outgoing record is
registered. -/
def connectToPeer (myId : String) (conns : ConnMap) (remote : String) : ConnMap :=
  if (List.lookup remote conns).isSome then conns
  else if remote = myId then conns
  else conns ++ [(remote, Dir.outgoing)]

/-- Number of records held for a given remote identifier. -/
def countKey (conns : ConnMap) (k : String) : Nat :=
  (conns.filter (fun p => p.1 == k)).length

end PeerJS

namespace WebRTC

/-- A peer connection record of the useWebRTC hook. The transport engine
is the black box the specification excludes, so the record keeps its
observable surface: the remote description once applied, the local
description, the queue of buffered network candidates, the trace of
candidates handed to addIceCandidate in call order, and the data channel
as its readyState string (none when no channel exists yet). -/
structure PeerConn where
  remoteDescription : Option String
  localDescription : Option String
  pendingIceCandidates : List String
  appliedCandidates : List String
  dataChannel : Option String
deriving DecidableEq, Repr

/-- Record as createPeerConnection yields it, before any description is
applied (the data channel of the initiator starts in the connecting
readyState; the responder has none until the ondatachannel event). -/
def freshPeerConn (isInitiator : Bool) : PeerConn :=
  { remoteDescription := none
    localDescription := none
    pendingIceCandidates := []
    appliedCandidates := []
    dataChannel := if isInitiator then some "connecting" else none }

/-- The peerConnectionsRef map: remote peer id to record, in insertion
order as a JS Map keeps it. -/
abbrev PeerMap := List (String × PeerConn)

/-- Test the source performs as dataChannel?.readyState === open. -/
def channelOpen (pc : PeerConn) : Bool :=
  pc.dataChannel == some "open"

/-- The ice-candidate branch of handleSignalingMessage, restricted to
the record of the sending peer: a candidate arriving once the remote
description is set is handed to addIceCandidate immediately; before
that it is pushed onto the pending queue. -/
def recvIceCandidate (pc : PeerConn) (c : String) : PeerConn :=
  if pc.remoteDescription.isSome then
    { pc with appliedCandidates := pc.appliedCandidates ++ [c] }
  else
    { pc with pendingIceCandidates := pc.pendingIceCandidates ++ [c] }

/-- The shared sequence both the offer branch and the answer branch run
after setRemoteDescription succeeds: every buffered candidate is handed
to addIceCandidate in queue order and the queue is cleared. -/
def applyRemoteDescription (pc : PeerConn) (desc : String) : PeerConn :=
  { pc with remoteDescription := some desc
            appliedCandidates := pc.appliedCandidates ++ pc.pendingIceCandidates
            pendingIceCandidates := [] }

/-- Messages the hook sends to the signaling server. -/
inductive SigOut where
  | offerOut (targetPeerId : String) (payload : String)
  | answerOut (targetPeerId : String) (payload : String)
  | iceOut (targetPeerId : String) (payload : String)
deriving DecidableEq, Repr

/-- Client-side state touched by the offer branch: the record map, the
openness of the signaling link, and the trace of messages sent to it. -/
structure ClientState where
  peerConnections : PeerMap
  wsOpen : Bool
  sent : List SigOut
deriving DecidableEq, Repr

/-- The offer branch of handleSignalingMessage on its happy path. The
transport calls createAnswer through the black box answerOf. A duplicate
offer, one from a source that already has a record, returns at once:
no record is created, nothing is sent, nothing changes. Otherwise a
responder record is created and registered, the offer is applied as the
remote description (flushing the pending queue of the fresh record),
an answer is generated, set locally, and sent back when the link is
open. -/
def handleOffer (answerOf : String → String) (st : ClientState)
    (fromPeerId offerDesc : String) : ClientState :=
  if (List.lookup fromPeerId st.peerConnections).isSome then st
  else
    let pc1 := applyRemoteDescription (freshPeerConn false) offerDesc
    let ans := answerOf offerDesc
    let pc2 := { pc1 with localDescription := some ans }
    { st with
      peerConnections := st.peerConnections ++ [(fromPeerId, pc2)]
      sent := st.sent ++ (if st.wsOpen then [SigOut.answerOut fromPeerId ans] else []) }

/-- updateConnectionsList: the identifiers of the record map, kept in
insertion order, filtered to those whose data channel readyState is
open. -/
def updateConnectionsList (conns : PeerMap) : List String :=
  (conns.map Prod.fst).filter (fun id =>
    match List.lookup id conns with
    | some pc => channelOpen pc
    | none => false)

/-- Aggregate connection status of the hook. -/
inductive Status where
  | disconnected
  | connecting
  | connected
  | errorStatus
deriving DecidableEq, Repr

/-- Status recomputation performed by updateConnectionsList: connected
when the open list is non-empty, else disconnected when the signaling
link is open; otherwise the handler leaves the status it found. -/
def updateStatus (conns : PeerMap) (wsOpen : Bool) (st : Status) : Status :=
  if 0 < (updateConnectionsList conns).length then Status.connected
  else if wsOpen then Status.disconnected
  else st

/-- The ws onclose handler: the relay link going down sets the status to
the error value unconditionally. -/
def onWsClose (_st : Status) : Status := Status.errorStatus

/-- A file as the send path sees it: name, mime type and content bytes;
the size field of a JS File is the byte length of its content. -/
structure FileInfo where
  name : String
  mimeType : String
  bytes : List Nat
deriving DecidableEq, Repr

/-- Messages sent over a data channel by the send path: the stringified
file-metadata object, then the array buffer of the whole file. -/
inductive DCMsg where
  | metadataMsg (name : String) (size : Nat) (mimeType : String)
  | binaryMsg (bytes : List Nat)
deriving DecidableEq, Repr

/-- The pair of sends the hook performs on one open channel for one
file: metadata first, then the file bytes. -/
def fileSends (file : FileInfo) : List DCMsg :=
  [DCMsg.metadataMsg file.name file.bytes.length file.mimeType,
   DCMsg.binaryMsg file.bytes]

/-- sendFile of useWebRTC: filter the record map to the entries whose
data channel is open; with none, report failure and send nothing; else
send metadata plus file to each open peer and report success. The result
pairs the returned Bool with the per-peer sends. -/
def sendFile (conns : PeerMap) (file : FileInfo) :
    Bool × List (String × List DCMsg) :=
  let openConnections := conns.filter (fun p => channelOpen p.2)
  if openConnections.length = 0 then (false, [])
  else (true, openConnections.map (fun p => (p.1, fileSends file)))

/-- sendFileToPeer of useWebRTC: fail without sending when the peer has
no record or its data channel readyState is not open; otherwise send
metadata plus file to that peer and report success. -/
def sendFileToPeer (conns : PeerMap) (file : FileInfo) (remotePeerId : String) :
    Bool × List (String × List DCMsg) :=
  match List.lookup remotePeerId conns with
  | none => (false, [])
  | some pc =>
      if channelOpen pc then (true, [(remotePeerId, fileSends file)])
      else (false, [])

/-- File metadata as parsed from a file-metadata control string. -/
structure FileMetadataMsg where
  name : String
  size : Nat
  mimeType : String
deriving DecidableEq, Repr

/-- Data arriving on a data channel, as handleIncomingData discriminates
it: a string that parses as a file-metadata object, any other string, a
Blob, an ArrayBuffer, or anything else. -/
inductive InData where
  | strMeta (m : FileMetadataMsg)
  | strOther
  | blobData (bytes : List Nat)
  | bufferData (bytes : List Nat)
  | otherData
deriving DecidableEq, Repr

/-- An entry of the receivedFiles list. -/
structure ReceivedFileEntry where
  name : String
  size : Nat
  timestamp : Nat
deriving DecidableEq, Repr

/-- Receiver-side state of the hook: the fileMetadataRef map keyed by
sending peer, the receivedFiles list, and the trace of downloadFile
calls as (filename, bytes). -/
structure RecvSt where
  fileMetadata : List (String × FileMetadataMsg)
  receivedFiles : List ReceivedFileEntry
  downloads : List (String × List Nat)
deriving DecidableEq, Repr

/-- JS Map.set: replace in place when the key exists, append at the end
otherwise. -/
def setKey (m : List (String × FileMetadataMsg)) (k : String) (v : FileMetadataMsg) :
    List (String × FileMetadataMsg) :=
  if (List.lookup k m).isSome then
    m.map (fun p => if p.1 = k then (k, v) else p)
  else m ++ [(k, v)]

/-- The filename a binary message is finalized under: the name stored in
the metadata of the sender when present and non-empty (the source uses
the JS or-else, under which an empty name is falsy), otherwise the
generated placeholder built from the current timestamp. -/
def chooseFilename (meta : Option FileMetadataMsg) (now : Nat) : String :=
  match meta with
  | some m => if m.name = "" then "file-" ++ toString now else m.name
  | none => "file-" ++ toString now

/-- handleIncomingData of useWebRTC, with the Date.now clock passed in:
a file-metadata string is stored in the metadata map under the sender; a
Blob or ArrayBuffer is downloaded under the chosen filename, appended to
receivedFiles with its byte size and timestamp, and the metadata entry
of the sender is deleted; other strings and unknown data are ignored. -/
def handleIncomingData (now : Nat) (st : RecvSt) (data : InData) (fromPeerId : String) :
    RecvSt :=
  match data with
  | InData.strMeta m => { st with fileMetadata := setKey st.fileMetadata fromPeerId m }
  | InData.strOther => st
  | InData.blobData b =>
      let filename := chooseFilename (List.lookup fromPeerId st.fileMetadata) now
      { st with
        downloads := st.downloads ++ [(filename, b)]
        receivedFiles := st.receivedFiles ++
          [{ name := filename, size := b.length, timestamp := now }]
        fileMetadata := st.fileMetadata.filter (fun p => p.1 != fromPeerId) }
  | InData.bufferData b =>
      let filename := chooseFilename (List.lookup fromPeerId st.fileMetadata) now
      { st with
        downloads := st.downloads ++ [(filename, b)]
        receivedFiles := st.receivedFiles ++
          [{ name := filename, size := b.length, timestamp := now }]
        fileMetadata := st.fileMetadata.filter (fun p => p.1 != fromPeerId) }
  | InData.otherData => st

end WebRTC

section MapHelpers

variable {β : Type}

/-- Looking up a key in a list purged of that key yields nothing. -/
theorem lookup_filter_ne_self (l : List (String × β)) (k : String) :
    List.lookup k (l.filter (fun p => p.1 != k)) = none := by
  induction l with
  | nil => rfl
  | cons hd tl ih =>
      obtain ⟨a, b⟩ := hd
      by_cases h : a = k
      · simpa [List.filter, h] using ih
      · have hne : (a != k) = true := bne_iff_ne.mpr h
        have hkne : (k == a) = false := beq_eq_false_iff_ne.mpr (fun he => h he.symm)
        simp [List.filter, hne, List.lookup, hkne, ih]

/-- Purging a different key does not change a lookup. -/
theorem lookup_filter_ne (l : List (String × β)) (k p : String) (hpk : p ≠ k) :
    List.lookup p (l.filter (fun q => q.1 != k)) = List.lookup p l := by
  induction l with
  | nil => rfl
  | cons hd tl ih =>
      obtain ⟨a, b⟩ := hd
      by_cases h : a = k
      · have hpf : (p == a) = false :=
          beq_eq_false_iff_ne.mpr (fun he => hpk (he.trans h))
        have hbne : (a != k) = false := by simp [bne, h]
        simp [List.filter, hbne, List.lookup, hpf, ih]
      · have hne : (a != k) = true := bne_iff_ne.mpr h
        by_cases hp : p = a
        · simp [List.filter, hne, List.lookup, hp]
        · have hpf : (p == a) = false := beq_eq_false_iff_ne.mpr hp
          simp [List.filter, hne, List.lookup, hpf, ih]

/-- A lookup that misses the left part of an append continues right. -/
theorem lookup_append_left_none (l1 l2 : List (String × β)) (k : String)
    (h : List.lookup k l1 = none) :
    List.lookup k (l1 ++ l2) = List.lookup k l2 := by
  induction l1 with
  | nil => rfl
  | cons hd tl ih =>
      obtain ⟨a, b⟩ := hd
      by_cases hk : k = a
      · simp only [List.lookup, hk, beq_self_eq_true] at h
        exact absurd h (by simp)
      · have hkf : (k == a) = false := beq_eq_false_iff_ne.mpr hk
        simp only [List.cons_append, List.lookup, hkf] at h ⊢
        exact ih h

/-- No entry of a key-purged list matches that key. -/
theorem filter_key_filter_ne_nil (l : List (String × β)) (k : String) :
    (l.filter (fun p => p.1 != k)).filter (fun p => p.1 == k) = [] := by
  rw [List.filter_filter]
  apply List.filter_eq_nil_iff.mpr
  intro a _
  by_cases h : a.1 = k <;> simp [h]

/-- A key absent from the key column is never kept by the key filter. -/
theorem filter_key_eq_nil_of_not_mem (l : List (String × β)) (p : String)
    (h : p ∉ l.map Prod.fst) :
    l.filter (fun q => q.1 == p) = [] := by
  induction l with
  | nil => rfl
  | cons hd tl ih =>
      obtain ⟨a, b⟩ := hd
      simp only [List.map_cons, List.mem_cons] at h
      push_neg at h
      have hf : (a == p) = false :=
        beq_eq_false_iff_ne.mpr (fun he => h.1 he.symm)
      simp [List.filter, hf, ih h.2]

/-- With no duplicate keys, the key filter retains exactly the entry the
lookup finds. -/
theorem filter_key_eq_of_lookup (l : List (String × β)) (p : String) (v : β)
    (hnd : (l.map Prod.fst).Nodup) (h : List.lookup p l = some v) :
    l.filter (fun q => q.1 == p) = [(p, v)] := by
  induction l with
  | nil => simp [List.lookup] at h
  | cons hd tl ih =>
      obtain ⟨a, b⟩ := hd
      simp only [List.map_cons, List.nodup_cons] at hnd
      by_cases hk : p = a
      · have hpt : (p == a) = true := beq_iff_eq.mpr hk
        simp only [List.lookup, hpt, Option.some_inj] at h
        have hhd : (a == p) = true := beq_iff_eq.mpr hk.symm
        have hrest : tl.filter (fun q => q.1 == p) = [] :=
          filter_key_eq_nil_of_not_mem tl p (by rw [hk]; exact hnd.1)
        simp [List.filter, hhd, hrest, ← hk, h]
      · have hpf : (p == a) = false := beq_eq_false_iff_ne.mpr hk
        have hhf : (a == p) = false :=
          beq_eq_false_iff_ne.mpr (fun he => hk he.symm)
        simp only [List.lookup, hpf] at h
        simp [List.filter, hhf, ih hnd.2 h]

/-- Filtering a key-preserving constant-payload map commutes with the
recipient filter. -/
theorem filter_map_key {γ : Type} (l : List (String × β)) (p : String) (c : γ) :
    ((l.map (fun q => (q.1, c))).filter (fun m => m.1 == p))
      = (l.filter (fun q => q.1 == p)).map (fun q => (q.1, c)) := by
  induction l with
  | nil => rfl
  | cons hd tl ih =>
      obtain ⟨a, b⟩ := hd
      by_cases h : a = p
      · simp [List.filter, h, ih]
      · have hf : (a == p) = false := beq_eq_false_iff_ne.mpr h
        simp [List.filter, hf, ih]

end MapHelpers

/-- C3: for every offer, answer or ice-candidate envelope the relay hub
receives, when the target identifier is registered with an open link the
envelope is forwarded to the target extended with the sender identifier
and the sender gets no error; when the target is absent or its link is
not open the sender gets the error envelope naming the unavailable
target, nothing is forwarded to anyone, and the registry is unchanged in
both cases. -/
theorem C3_relay_forwards_or_reports (reg : Server.Registry)
    (fromId target payload : String) (kind : Server.MsgKind) :
    Server.handleMessage reg fromId (Server.ClientMsg.signal kind target payload)
      = (if List.lookup target reg = some true then
           [(target, Server.ServerMsg.forward kind target payload fromId)]
         else
           [(fromId, Server.ServerMsg.errorMsg ("Peer " ++ target ++ " not available"))],
         reg) := by
  unfold Server.handleMessage
  rcases h : List.lookup target reg with _ | b
  · simp [h]
  · cases b <;> simp [h]

/-- C9: a relay message that fails to parse makes the hub reply to the
sender, and only the sender, with an error envelope; the connection is
not closed and the registry is unchanged. -/
theorem C9_malformed_message_replies (reg : Server.Registry) (fromId : String) :
    Server.handleRawMessage reg fromId none
      = ([(fromId, Server.ServerMsg.errorMsg "Invalid message format")], reg, false) := rfl

/-- The messages handleClose addresses to one recipient are exactly the
disconnect notice mapped over the entries that are distinct from the
departing peer, open, and keyed by that recipient. -/
theorem handleClose_sends_filter (reg : Server.Registry) (d p : String) :
    ((Server.handleClose reg d).2.filter (fun m => m.1 == p))
      = (reg.filter (fun q => (q.1 == p && q.2) && q.1 != d)).map
          (fun q => (q.1, Server.ServerMsg.peerDisconnected d)) := by
  unfold Server.handleClose
  rw [filter_map_key, List.filter_filter, List.filter_filter]

/-- C6: when an endpoint disconnects from the relay hub its identifier
is removed from the registry while every other entry is unchanged;
every remaining registered endpoint whose link is open receives exactly
one peer-disconnected envelope naming the departed identifier, while the
departed endpoint and the endpoints with non-open links receive
nothing. -/
theorem C6_disconnect_notifications (reg : Server.Registry) (departing : String)
    (hnd : (reg.map Prod.fst).Nodup) :
    List.lookup departing (Server.handleClose reg departing).1 = none
  ∧ (∀ p, p ≠ departing →
      List.lookup p (Server.handleClose reg departing).1 = List.lookup p reg)
  ∧ (Server.handleClose reg departing).2.filter (fun m => m.1 == departing) = []
  ∧ (∀ p, p ≠ departing → List.lookup p reg = some true →
      (Server.handleClose reg departing).2.filter (fun m => m.1 == p)
        = [(p, Server.ServerMsg.peerDisconnected departing)])
  ∧ (∀ p, List.lookup p reg = some false →
      (Server.handleClose reg departing).2.filter (fun m => m.1 == p) = []) := by
  refine ⟨?_, ?_, ?_, ?_, ?_⟩
  · exact lookup_filter_ne_self reg departing
  · intro p hp
    exact lookup_filter_ne reg departing p hp
  · rw [handleClose_sends_filter]
    have h0 : reg.filter (fun q => (q.1 == departing && q.2) && q.1 != departing) = [] := by
      apply List.filter_eq_nil_iff.mpr
      intro q _
      by_cases h : q.1 = departing <;> simp [h]
    rw [h0]; rfl
  · intro p hp hopen
    rw [handleClose_sends_filter]
    have hcong : reg.filter (fun q => (q.1 == p && q.2) && q.1 != departing)
        = reg.filter (fun q => (q.2 && q.1 != departing) && q.1 == p) := by
      apply List.filter_congr
      intro q _
      cases h1 : (q.1 == p) <;> cases h2 : q.2 <;> cases h3 : (q.1 != departing) <;>
        simp [h1, h2, h3]
    rw [hcong, ← List.filter_filter,
        filter_key_eq_of_lookup reg p true hnd hopen]
    have hpd : (p != departing) = true := bne_iff_ne.mpr hp
    simp [List.filter, hpd]
  · intro p hclosed
    rw [handleClose_sends_filter]
    have hcong : reg.filter (fun q => (q.1 == p && q.2) && q.1 != departing)
        = reg.filter (fun q => (q.2 && q.1 != departing) && q.1 == p) := by
      apply List.filter_congr
      intro q _
      cases h1 : (q.1 == p) <;> cases h2 : q.2 <;> cases h3 : (q.1 != departing) <;>
        simp [h1, h2, h3]
    rw [hcong, ← List.filter_filter,
        filter_key_eq_of_lookup reg p false hnd hclosed]
    simp [List.filter]

/-- C2: two endpoints holding outgoing records for each other resolve a
simultaneous mutual connect deterministically: the side whose own
identifier sorts lexicographically smaller keeps its outgoing record and
closes the incoming connection, the side whose identifier sorts larger
closes and discards its outgoing record in favor of the incoming one,
and each side is left with exactly one record for the remote
identifier. -/
theorem C2_simultaneous_connect_tiebreak (a b : String) (connsA connsB : PeerJS.ConnMap)
    (hab : PeerJS.strLt a b)
    (hA : List.lookup b connsA = some PeerJS.Dir.outgoing)
    (hB : List.lookup a connsB = some PeerJS.Dir.outgoing)
    (hndA : (connsA.map Prod.fst).Nodup) :
    (PeerJS.onIncomingConnection a connsA b).1 = connsA
  ∧ (PeerJS.onIncomingConnection a connsA b).2 = [PeerJS.Dir.incoming]
  ∧ List.lookup b (PeerJS.onIncomingConnection a connsA b).1 = some PeerJS.Dir.outgoing
  ∧ PeerJS.countKey (PeerJS.onIncomingConnection a connsA b).1 b = 1
  ∧ List.lookup a (PeerJS.onIncomingConnection b connsB a).1 = some PeerJS.Dir.incoming
  ∧ (PeerJS.onIncomingConnection b connsB a).2 = [PeerJS.Dir.outgoing]
  ∧ PeerJS.countKey (PeerJS.onIncomingConnection b connsB a).1 a = 1 := by
  have hEqA : PeerJS.onIncomingConnection a connsA b
      = (connsA, [PeerJS.Dir.incoming]) := by
    unfold PeerJS.onIncomingConnection
    rw [hA]
    simp [hab]
  have hnotba : ¬ PeerJS.strLt b a := lt_asymm hab
  have hEqB : PeerJS.onIncomingConnection b connsB a
      = ((connsB.filter (fun p => p.1 != a)) ++ [(a, PeerJS.Dir.incoming)],
         [PeerJS.Dir.outgoing]) := by
    unfold PeerJS.onIncomingConnection
    rw [hB]
    simp [hnotba]
  refine ⟨by rw [hEqA], by rw [hEqA], by rw [hEqA]; exact hA, ?_, ?_, by rw [hEqB], ?_⟩
  · rw [hEqA]
    unfold PeerJS.countKey
    rw [filter_key_eq_of_lookup connsA b PeerJS.Dir.outgoing hndA hA]
    rfl
  · rw [hEqB]
    rw [lookup_append_left_none _ _ _ (lookup_filter_ne_self connsB a)]
    simp [List.lookup]
  · rw [hEqB]
    unfold PeerJS.countKey
    rw [List.filter_append, filter_key_filter_ne_nil]
    simp

/-- Folding candidate receptions over a record with no remote
description only extends the pending queue, in arrival order. -/
theorem foldl_recvIce_of_no_remote (cs : List String) :
    ∀ pc : WebRTC.PeerConn, pc.remoteDescription = none →
      cs.foldl WebRTC.recvIceCandidate pc
        = { pc with pendingIceCandidates := pc.pendingIceCandidates ++ cs } := by
  induction cs with
  | nil => intro pc _; simp
  | cons c cs ih =>
      intro pc h
      have h1 : WebRTC.recvIceCandidate pc c
          = { pc with pendingIceCandidates := pc.pendingIceCandidates ++ [c] } := by
        unfold WebRTC.recvIceCandidate
        simp [h]
      rw [List.foldl_cons, h1, ih _ (by simp [h])]
      simp

/-- C4: network candidates received before the remote description is
applied are appended to the pending queue in arrival order and none is
applied yet; applying the remote description applies every buffered
candidate exactly once, in enqueue order, and clears the queue; a
candidate arriving afterwards is applied immediately, bypassing the
queue. -/
theorem C4_candidate_buffering (pc : WebRTC.PeerConn) (cs : List String) (d c : String)
    (h : pc.remoteDescription = none) :
    (cs.foldl WebRTC.recvIceCandidate pc).pendingIceCandidates
        = pc.pendingIceCandidates ++ cs
  ∧ (cs.foldl WebRTC.recvIceCandidate pc).appliedCandidates = pc.appliedCandidates
  ∧ (WebRTC.applyRemoteDescription (cs.foldl WebRTC.recvIceCandidate pc) d).appliedCandidates
        = pc.appliedCandidates ++ (pc.pendingIceCandidates ++ cs)
  ∧ (WebRTC.applyRemoteDescription
        (cs.foldl WebRTC.recvIceCandidate pc) d).pendingIceCandidates = []
  ∧ (WebRTC.recvIceCandidate
        (WebRTC.applyRemoteDescription (cs.foldl WebRTC.recvIceCandidate pc) d)
        c).appliedCandidates
        = pc.appliedCandidates ++ (pc.pendingIceCandidates ++ cs) ++ [c]
  ∧ (WebRTC.recvIceCandidate
        (WebRTC.applyRemoteDescription (cs.foldl WebRTC.recvIceCandidate pc) d)
        c).pendingIceCandidates = [] := by
  rw [foldl_recvIce_of_no_remote cs pc h]
  refine ⟨rfl, rfl, ?_, ?_, ?_, ?_⟩ <;>
    simp [WebRTC.applyRemoteDescription, WebRTC.recvIceCandidate]

/-- C5: an offer from a source identifier that already has a connection
record is a no-op: the state is unchanged, so no second record is
created, nothing is sent back, and the existing record is untouched. -/
theorem C5_duplicate_offer_noop (answerOf : String → String) (st : WebRTC.ClientState)
    (fromPeerId offerDesc : String)
    (h : (List.lookup fromPeerId st.peerConnections).isSome = true) :
    WebRTC.handleOffer answerOf st fromPeerId offerDesc = st
  ∧ (WebRTC.handleOffer answerOf st fromPeerId offerDesc).peerConnections
      = st.peerConnections
  ∧ (WebRTC.handleOffer answerOf st fromPeerId offerDesc).sent = st.sent := by
  have heq : WebRTC.handleOffer answerOf st fromPeerId offerDesc = st := by
    unfold WebRTC.handleOffer
    simp [h]
  exact ⟨heq, by rw [heq], by rw [heq]⟩

/-- C7: sending a file to a peer with no record or a non-open data
channel fails with false and transmits nothing, sending to all peers
with no open connection fails with false and transmits nothing, and as
soon as an open channel exists the operation reports true. -/
theorem C7_send_guards (conns : WebRTC.PeerMap) (file : WebRTC.FileInfo)
    (rid : String) :
    (List.lookup rid conns = none →
      WebRTC.sendFileToPeer conns file rid = (false, []))
  ∧ (∀ pc, List.lookup rid conns = some pc → WebRTC.channelOpen pc = false →
      WebRTC.sendFileToPeer conns file rid = (false, []))
  ∧ (conns.filter (fun p => WebRTC.channelOpen p.2) = [] →
      WebRTC.sendFile conns file = (false, []))
  ∧ ((∃ p ∈ conns, WebRTC.channelOpen p.2 = true) →
      (WebRTC.sendFile conns file).1 = true)
  ∧ (∀ pc, List.lookup rid conns = some pc → WebRTC.channelOpen pc = true →
      (WebRTC.sendFileToPeer conns file rid).1 = true) := by
  refine ⟨?_, ?_, ?_, ?_, ?_⟩
  · intro h
    unfold WebRTC.sendFileToPeer
    rw [h]
  · intro pc hpc hopen
    unfold WebRTC.sendFileToPeer
    rw [hpc]
    simp [hopen]
  · intro h
    unfold WebRTC.sendFile
    simp [h]
  · intro h
    obtain ⟨p, hmem, hopen⟩ := h
    unfold WebRTC.sendFile
    have hne : conns.filter (fun q => WebRTC.channelOpen q.2) ≠ [] := by
      intro hnil
      have : p ∈ conns.filter (fun q => WebRTC.channelOpen q.2) :=
        List.mem_filter.mpr ⟨hmem, hopen⟩
      rw [hnil] at this
      exact absurd this (List.not_mem_nil p)
    have hlen : (conns.filter (fun q => WebRTC.channelOpen q.2)).length ≠ 0 := by
      simpa [List.length_eq_zero] using hne
    simp [hlen]
  · intro pc hpc hopen
    unfold WebRTC.sendFileToPeer
    rw [hpc]
    simp [hopen]

/-- With no duplicate keys, the key-then-lookup formulation of
updateConnectionsList equals the direct filter of the entries whose
channel is open, keeping insertion order. -/
theorem updateConnectionsList_eq (conns : WebRTC.PeerMap)
    (hnd : (conns.map Prod.fst).Nodup) :
    WebRTC.updateConnectionsList conns
      = (conns.filter (fun p => WebRTC.channelOpen p.2)).map Prod.fst := by
  induction conns with
  | nil => rfl
  | cons hd tl ih =>
      obtain ⟨k, v⟩ := hd
      simp only [List.map_cons, List.nodup_cons] at hnd
      have htl : (tl.map Prod.fst).filter
            (fun id => match List.lookup id ((k, v) :: tl) with
                       | some pc => WebRTC.channelOpen pc
                       | none => false)
          = (tl.filter (fun p => WebRTC.channelOpen p.2)).map Prod.fst := by
        rw [← ih hnd.2]
        unfold WebRTC.updateConnectionsList
        apply List.filter_congr
        intro id hid
        have hne : (id == k) = false :=
          beq_eq_false_iff_ne.mpr (fun he => hnd.1 (he ▸ hid))
        simp [List.lookup, hne]
      unfold WebRTC.updateConnectionsList
      simp only [List.map_cons, List.filter_cons]
      rw [htl]
      have hPk : (match List.lookup k ((k, v) :: tl) with
                  | some pc => WebRTC.channelOpen pc
                  | none => false) = WebRTC.channelOpen v := by
        simp [List.lookup]
      rw [hPk]
      by_cases ho : WebRTC.channelOpen v = true <;> simp [ho]

/-- C8: the derived connections list contains exactly the identifiers
whose data channel is open, in insertion order; the recomputed status is
connected when that list is non-empty and otherwise disconnected when
the relay link is open; the relay link going down sets the error status
through its own close handler; and the recomputation never produces the
connecting status, which only a caller sets directly. -/
theorem C8_connections_and_status (conns : WebRTC.PeerMap) (wsOpen : Bool)
    (st : WebRTC.Status) (hnd : (conns.map Prod.fst).Nodup) :
    WebRTC.updateConnectionsList conns
      = (conns.filter (fun p => WebRTC.channelOpen p.2)).map Prod.fst
  ∧ (WebRTC.updateConnectionsList conns ≠ [] →
      WebRTC.updateStatus conns wsOpen st = WebRTC.Status.connected)
  ∧ (WebRTC.updateConnectionsList conns = [] → wsOpen = true →
      WebRTC.updateStatus conns wsOpen st = WebRTC.Status.disconnected)
  ∧ WebRTC.onWsClose st = WebRTC.Status.errorStatus
  ∧ (st ≠ WebRTC.Status.connecting →
      WebRTC.updateStatus conns wsOpen st ≠ WebRTC.Status.connecting) := by
  refine ⟨updateConnectionsList_eq conns hnd, ?_, ?_, rfl, ?_⟩
  · intro h
    have hpos : 0 < (WebRTC.updateConnectionsList conns).length :=
      List.length_pos.mpr h
    unfold WebRTC.updateStatus
    simp [hpos]
  · intro h hws
    unfold WebRTC.updateStatus
    simp [h, hws]
  · intro hst
    unfold WebRTC.updateStatus
    split_ifs <;> simp [hst]

/-- C10: a stored file-metadata entry is consumed by exactly one binary
message: the first Blob from that sender is finalized and downloaded
under the metadata name, after which the metadata entry is deleted, so a
second binary message from the same sender with no fresh metadata is
still finalized and downloaded, but under the generated timestamp-based
placeholder name. -/
theorem C10_metadata_consumed_once (st : WebRTC.RecvSt) (fromPeerId : String)
    (m : WebRTC.FileMetadataMsg) (b1 b2 : List Nat) (now1 now2 : Nat)
    (hm : List.lookup fromPeerId st.fileMetadata = some m) (hname : m.name ≠ "") :
    (WebRTC.handleIncomingData now1 st (WebRTC.InData.blobData b1) fromPeerId).receivedFiles
      = st.receivedFiles ++ [{ name := m.name, size := b1.length, timestamp := now1 }]
  ∧ (WebRTC.handleIncomingData now1 st (WebRTC.InData.blobData b1) fromPeerId).downloads
      = st.downloads ++ [(m.name, b1)]
  ∧ List.lookup fromPeerId
      (WebRTC.handleIncomingData now1 st (WebRTC.InData.blobData b1) fromPeerId).fileMetadata
      = none
  ∧ (WebRTC.handleIncomingData now2
       (WebRTC.handleIncomingData now1 st (WebRTC.InData.blobData b1) fromPeerId)
       (WebRTC.InData.bufferData b2) fromPeerId).receivedFiles
      = st.receivedFiles ++ [{ name := m.name, size := b1.length, timestamp := now1 }]
          ++ [{ name := "file-" ++ toString now2, size := b2.length, timestamp := now2 }]
  ∧ (WebRTC.handleIncomingData now2
       (WebRTC.handleIncomingData now1 st (WebRTC.InData.blobData b1) fromPeerId)
       (WebRTC.InData.bufferData b2) fromPeerId).downloads
      = st.downloads ++ [(m.name, b1)] ++ [("file-" ++ toString now2, b2)] := by
  have hfn1 : WebRTC.chooseFilename (List.lookup fromPeerId st.fileMetadata) now1
      = m.name := by
    rw [hm]
    unfold WebRTC.chooseFilename
    simp [hname]
  have h1 : WebRTC.handleIncomingData now1 st (WebRTC.InData.blobData b1) fromPeerId
      = { st with
          downloads := st.downloads ++ [(m.name, b1)]
          receivedFiles := st.receivedFiles ++
            [{ name := m.name, size := b1.length, timestamp := now1 }]
          fileMetadata := st.fileMetadata.filter (fun p => p.1 != fromPeerId) } := by
    unfold WebRTC.handleIncomingData
    rw [hfn1]
  have hnone : List.lookup fromPeerId
      (st.fileMetadata.filter (fun p => p.1 != fromPeerId)) = none :=
    lookup_filter_ne_self st.fileMetadata fromPeerId
  refine ⟨by rw [h1], by rw [h1], by rw [h1]; exact hnone, ?_, ?_⟩
  · rw [h1]
    unfold WebRTC.handleIncomingData
    rw [hnone]
    rfl
  · rw [h1]
    unfold WebRTC.handleIncomingData
    rw [hnone]
    rfl

/-- The result of splitting is never the empty list of chunks. -/
theorem splitChunks_ne_nil (l : List Chunked.Byte) : Chunked.splitChunks l ≠ [] := by
  rw [Chunked.splitChunks]
  by_cases h : Chunked.CHUNK_SIZE < l.length <;> simp [h]

/-- The default value of getLastD is irrelevant on a non-empty list. -/
theorem getLastD_congr {α : Type} (l : List α) (a b : α) (h : l ≠ []) :
    l.getLastD a = l.getLastD b := by
  cases l with
  | nil => exact absurd rfl h
  | cons x xs => simp only [List.getLastD_cons]

/-- Core facts about splitChunks, proved together by strong induction on
the length: concatenating the chunks restores the list, for a non-empty
list the number of chunks is the ceiling of length over CHUNK_SIZE, no
chunk exceeds CHUNK_SIZE, and when the length is not a multiple of
CHUNK_SIZE the final chunk has exactly the remainder as its length. -/
theorem splitChunks_facts : ∀ (n : Nat) (l : List Chunked.Byte), l.length ≤ n →
    (Chunked.splitChunks l).flatten = l
  ∧ (0 < l.length → (Chunked.splitChunks l).length
        = (l.length + Chunked.CHUNK_SIZE - 1) / Chunked.CHUNK_SIZE)
  ∧ (∀ c ∈ Chunked.splitChunks l, c.length ≤ Chunked.CHUNK_SIZE)
  ∧ (l.length % Chunked.CHUNK_SIZE ≠ 0 →
        ((Chunked.splitChunks l).getLastD []).length
          = l.length % Chunked.CHUNK_SIZE) := by
  intro n
  induction n with
  | zero =>
      intro l hle
      have hnil : l = [] := List.length_eq_zero.mp (Nat.le_zero.mp hle)
      subst hnil
      have hsplit : Chunked.splitChunks [] = [[]] := by
        rw [Chunked.splitChunks]
        simp [Chunked.CHUNK_SIZE]
      refine ⟨by simp [hsplit], by simp, ?_, by simp [Chunked.CHUNK_SIZE]⟩
      intro c hc
      rw [hsplit] at hc
      simp at hc
      simp [hc]
  | succ n ih =>
      intro l hle
      by_cases hc : Chunked.CHUNK_SIZE < l.length
      · have hsplit : Chunked.splitChunks l
            = l.take Chunked.CHUNK_SIZE :: Chunked.splitChunks (l.drop Chunked.CHUNK_SIZE) := by
          rw [Chunked.splitChunks]
          rw [if_pos hc]
        have hCpos : 0 < Chunked.CHUNK_SIZE := by decide
        have hdroplen : (l.drop Chunked.CHUNK_SIZE).length = l.length - Chunked.CHUNK_SIZE :=
          List.length_drop Chunked.CHUNK_SIZE l
        obtain ⟨ihf, ihl, ihm, ihlast⟩ := ih (l.drop Chunked.CHUNK_SIZE) (by omega)
        have htake : (l.take Chunked.CHUNK_SIZE).length = Chunked.CHUNK_SIZE := by
          rw [List.length_take]
          omega
        refine ⟨?_, ?_, ?_, ?_⟩
        · rw [hsplit, List.flatten_cons, ihf, List.take_append_drop]
        · intro _
          rw [hsplit, List.length_cons, ihl (by omega), hdroplen]
          simp only [Chunked.CHUNK_SIZE] at *
          omega
        · intro c hcm
          rw [hsplit] at hcm
          rcases List.mem_cons.mp hcm with h1 | h2
          · rw [h1, htake]
          · exact ihm c h2
        · intro hmod
          have hmod2 : (l.drop Chunked.CHUNK_SIZE).length % Chunked.CHUNK_SIZE ≠ 0 := by
            rw [hdroplen]
            simp only [Chunked.CHUNK_SIZE] at *
            omega
          rw [hsplit]
          rw [List.getLastD_cons]
          rw [getLastD_congr _ _ [] (splitChunks_ne_nil (l.drop Chunked.CHUNK_SIZE))]
          rw [ihlast hmod2, hdroplen]
          simp only [Chunked.CHUNK_SIZE] at *
          omega
      · have hsplit : Chunked.splitChunks l = [l] := by
          rw [Chunked.splitChunks]
          rw [if_neg hc]
        refine ⟨by simp [hsplit], ?_, ?_, ?_⟩
        · intro hpos
          rw [hsplit]
          simp only [List.length_singleton, Chunked.CHUNK_SIZE] at *
          omega
        · intro c hcm
          rw [hsplit] at hcm
          simp at hcm
          rw [hcm]
          omega
        · intro hmod
          rw [hsplit]
          have hone : ([l] : List (List Chunked.Byte)).getLastD [] = l := rfl
          rw [hone]
          simp only [Chunked.CHUNK_SIZE] at *
          omega

/-- The readSlice / onload loop started at an offset inside the file
sends exactly the chunks of the rest of the file, in order, followed by
the file-end control message. -/
theorem readSliceLoop_eq (name : String) (file : List Chunked.Byte) :
    ∀ offset, offset < file.length →
      Chunked.readSliceLoop name file offset
        = ((Chunked.splitChunks (file.drop offset)).map Chunked.Msg.chunk)
            ++ [Chunked.Msg.fileEnd name] := by
  have hCpos : 0 < Chunked.CHUNK_SIZE := by decide
  suffices H : ∀ (n : Nat) (offset : Nat), file.length - offset ≤ n →
      offset < file.length →
      Chunked.readSliceLoop name file offset
        = ((Chunked.splitChunks (file.drop offset)).map Chunked.Msg.chunk)
            ++ [Chunked.Msg.fileEnd name] by
    intro offset h
    exact H (file.length - offset) offset le_rfl h
  intro n
  induction n with
  | zero => intro offset hle hlt; omega
  | succ n ih =>
      intro offset hle hlt
      rw [Chunked.readSliceLoop]
      by_cases hcond : offset + ((file.drop offset).take Chunked.CHUNK_SIZE).length
          < file.length
      · simp only [dif_pos hcond]
        have hslen : ((file.drop offset).take Chunked.CHUNK_SIZE).length
            = Chunked.CHUNK_SIZE := by
          simp only [List.length_take, List.length_drop] at hcond ⊢
          omega
        rw [hslen]
        have hofflt : offset + Chunked.CHUNK_SIZE < file.length := by
          rw [hslen] at hcond
          exact hcond
        have hsplit : Chunked.splitChunks (file.drop offset)
            = (file.drop offset).take Chunked.CHUNK_SIZE
                :: Chunked.splitChunks ((file.drop offset).drop Chunked.CHUNK_SIZE) := by
          rw [Chunked.splitChunks]
          rw [if_pos]
          rw [List.length_drop]
          omega
        rw [ih (offset + Chunked.CHUNK_SIZE) (by omega) (by omega)]
        rw [hsplit, List.map_cons, List.cons_append]
        rw [List.drop_drop]
      · simp only [dif_neg hcond]
        have hremle : (file.drop offset).length ≤ Chunked.CHUNK_SIZE := by
          simp only [List.length_take, List.length_drop] at hcond ⊢
          omega
        have hsplit : Chunked.splitChunks (file.drop offset) = [file.drop offset] := by
          rw [Chunked.splitChunks]
          rw [if_neg]
          omega
        have htake : (file.drop offset).take Chunked.CHUNK_SIZE = file.drop offset :=
          List.take_of_length_le hremle
        rw [hsplit, htake]
        rfl

/-- Folding chunk messages through the receiver appends them to the
buffer in order and leaves the finalized file untouched. -/
theorem runRecv_chunks (cs : List (List Chunked.Byte)) :
    ∀ st : Chunked.RecvState,
      (Chunked.runRecv st (cs.map Chunked.Msg.chunk)).receivedBuffer
          = st.receivedBuffer ++ cs
    ∧ (Chunked.runRecv st (cs.map Chunked.Msg.chunk)).receivedFile
          = st.receivedFile := by
  induction cs with
  | nil => intro st; simp [Chunked.runRecv]
  | cons c cs ih =>
      intro st
      have h := ih (Chunked.onMessage st (Chunked.Msg.chunk c))
      unfold Chunked.runRecv at h ⊢
      rw [List.map_cons, List.foldl_cons]
      refine ⟨?_, ?_⟩
      · rw [h.1]
        simp [Chunked.onMessage]
      · rw [h.2]
        simp [Chunked.onMessage]

/-- C1: sending a file of positive size S over the chunked protocol
transmits one file-meta control message with the name and size, then
exactly the ceiling of S over 16384 binary chunk messages in sequential
slice order, each of at most 16384 bytes and the last of size S mod
16384 when that is non-zero, then one file-end control message with the
name; the receiver fed exactly these messages reassembles an artifact
equal to the file, hence of byte length exactly S. -/
theorem C1_chunked_file_transfer (name : String) (file : List Chunked.Byte)
    (hS : 0 < file.length) :
    Chunked.sendFile name file
      = Chunked.Msg.fileMeta name file.length
          :: ((Chunked.splitChunks file).map Chunked.Msg.chunk
              ++ [Chunked.Msg.fileEnd name])
  ∧ (Chunked.splitChunks file).length
      = (file.length + Chunked.CHUNK_SIZE - 1) / Chunked.CHUNK_SIZE
  ∧ (∀ c ∈ Chunked.splitChunks file, c.length ≤ Chunked.CHUNK_SIZE)
  ∧ (file.length % Chunked.CHUNK_SIZE ≠ 0 →
      ((Chunked.splitChunks file).getLastD []).length
        = file.length % Chunked.CHUNK_SIZE)
  ∧ (Chunked.splitChunks file).flatten = file
  ∧ (Chunked.runRecv Chunked.initRecvState (Chunked.sendFile name file)).receivedFile
      = some (name, file)
  ∧ ((Chunked.runRecv Chunked.initRecvState
        (Chunked.sendFile name file)).receivedFile.map (fun p => p.2.length))
      = some file.length := by
  obtain ⟨hflat, hlen, hmem, hlast⟩ := splitChunks_facts file.length file le_rfl
  have hsend : Chunked.sendFile name file
      = Chunked.Msg.fileMeta name file.length
          :: ((Chunked.splitChunks file).map Chunked.Msg.chunk
              ++ [Chunked.Msg.fileEnd name]) := by
    unfold Chunked.sendFile
    rw [readSliceLoop_eq name file 0 hS]
    rw [List.drop_zero]
  have hrecv : (Chunked.runRecv Chunked.initRecvState
      (Chunked.sendFile name file)).receivedFile = some (name, file) := by
    rw [hsend]
    unfold Chunked.runRecv
    rw [List.foldl_cons, List.foldl_append, List.foldl_cons, List.foldl_nil]
    have hmid := runRecv_chunks (Chunked.splitChunks file)
      (Chunked.onMessage Chunked.initRecvState (Chunked.Msg.fileMeta name file.length))
    unfold Chunked.runRecv at hmid
    have hend : ∀ st : Chunked.RecvState,
        (Chunked.onMessage st (Chunked.Msg.fileEnd name)).receivedFile
          = some (name, st.receivedBuffer.flatten) := fun st => rfl
    rw [hend, hmid.1]
    have hbuf : (Chunked.onMessage Chunked.initRecvState
        (Chunked.Msg.fileMeta name file.length)).receivedBuffer = [] := rfl
    rw [hbuf, List.nil_append, hflat]
  exact ⟨hsend, hlen hS, hmem, hlast, hflat, hrecv, by rw [hrecv]; rfl⟩

/-- Witness for C1 at a concrete file of positive size. -/
theorem C1_chunked_file_transfer_witness :
    0 < ([1, 2, 3] : List Chunked.Byte).length
  ∧ (Chunked.runRecv Chunked.initRecvState
        (Chunked.sendFile "f" [1, 2, 3])).receivedFile = some ("f", [1, 2, 3]) :=
  ⟨by decide, (C1_chunked_file_transfer "f" [1, 2, 3] (by decide)).2.2.2.2.2.1⟩

/-- Witness for C2 at the identifiers A and B of the specification
scenario, each side holding an outgoing record for the other. -/
theorem C2_simultaneous_connect_tiebreak_witness :
    PeerJS.strLt "A" "B"
  ∧ (PeerJS.onIncomingConnection "A" [("B", PeerJS.Dir.outgoing)] "B").1
      = [("B", PeerJS.Dir.outgoing)]
  ∧ List.lookup "A"
      (PeerJS.onIncomingConnection "B" [("A", PeerJS.Dir.outgoing)] "A").1
      = some PeerJS.Dir.incoming :=
  ⟨by decide,
   (C2_simultaneous_connect_tiebreak "A" "B" [("B", PeerJS.Dir.outgoing)]
      [("A", PeerJS.Dir.outgoing)] (by decide) rfl rfl (by decide)).1,
   (C2_simultaneous_connect_tiebreak "A" "B" [("B", PeerJS.Dir.outgoing)]
      [("A", PeerJS.Dir.outgoing)] (by decide) rfl rfl (by decide)).2.2.2.2.1⟩

/-- Witness for C4 at a fresh responder record and two buffered
candidates. -/
theorem C4_candidate_buffering_witness :
    (WebRTC.freshPeerConn false).remoteDescription = none
  ∧ ((["n1", "n2"].foldl WebRTC.recvIceCandidate
        (WebRTC.freshPeerConn false)).pendingIceCandidates
      = (WebRTC.freshPeerConn false).pendingIceCandidates ++ ["n1", "n2"])
  ∧ (WebRTC.applyRemoteDescription
        (["n1", "n2"].foldl WebRTC.recvIceCandidate (WebRTC.freshPeerConn false))
        "desc").appliedCandidates
      = (WebRTC.freshPeerConn false).appliedCandidates
          ++ ((WebRTC.freshPeerConn false).pendingIceCandidates ++ ["n1", "n2"]) :=
  ⟨rfl,
   (C4_candidate_buffering (WebRTC.freshPeerConn false) ["n1", "n2"] "desc" "n3" rfl).1,
   (C4_candidate_buffering (WebRTC.freshPeerConn false) ["n1", "n2"] "desc" "n3" rfl).2.2.1⟩

/-- Witness for C5 at a state that already holds a record for the
offering peer. -/
theorem C5_duplicate_offer_noop_witness :
    (List.lookup "p" ([("p", WebRTC.freshPeerConn true)] : WebRTC.PeerMap)).isSome = true
  ∧ WebRTC.handleOffer (fun s => s)
      { peerConnections := [("p", WebRTC.freshPeerConn true)], wsOpen := true, sent := [] }
      "p" "offer1"
      = { peerConnections := [("p", WebRTC.freshPeerConn true)], wsOpen := true,
          sent := [] } :=
  ⟨rfl,
   (C5_duplicate_offer_noop (fun s => s)
      { peerConnections := [("p", WebRTC.freshPeerConn true)], wsOpen := true, sent := [] }
      "p" "offer1" rfl).1⟩

/-- Witness for C6 at a registry of three peers, one departing, one
remaining with an open link and one with a closed link. -/
theorem C6_disconnect_notifications_witness :
    ((([("a", true), ("b", true), ("c", false)] : Server.Registry).map Prod.fst).Nodup)
  ∧ List.lookup "a"
      (Server.handleClose [("a", true), ("b", true), ("c", false)] "a").1 = none
  ∧ (Server.handleClose [("a", true), ("b", true), ("c", false)] "a").2.filter
        (fun m => m.1 == "b") = [("b", Server.ServerMsg.peerDisconnected "a")]
  ∧ (Server.handleClose [("a", true), ("b", true), ("c", false)] "a").2.filter
        (fun m => m.1 == "c") = [] :=
  ⟨by decide,
   (C6_disconnect_notifications [("a", true), ("b", true), ("c", false)] "a"
      (by decide)).1,
   (C6_disconnect_notifications [("a", true), ("b", true), ("c", false)] "a"
      (by decide)).2.2.2.1 "b" (by decide) rfl,
   (C6_disconnect_notifications [("a", true), ("b", true), ("c", false)] "a"
      (by decide)).2.2.2.2 "c" rfl⟩

/-- Witness for C7: a send to an absent peer fails with nothing sent,
and a send with one open channel reports success. -/
theorem C7_send_guards_witness :
    WebRTC.sendFileToPeer [] { name := "f", mimeType := "t", bytes := [1, 2] } "p"
      = (false, [])
  ∧ (WebRTC.sendFile
      [("q", { remoteDescription := none, localDescription := none,
               pendingIceCandidates := [], appliedCandidates := [],
               dataChannel := some "open" })]
      { name := "f", mimeType := "t", bytes := [1, 2] }).1 = true :=
  ⟨(C7_send_guards [] { name := "f", mimeType := "t", bytes := [1, 2] } "p").1 rfl,
   (C7_send_guards
      [("q", { remoteDescription := none, localDescription := none,
               pendingIceCandidates := [], appliedCandidates := [],
               dataChannel := some "open" })]
      { name := "f", mimeType := "t", bytes := [1, 2] } "p").2.2.2.1
      ⟨("q", { remoteDescription := none, localDescription := none,
               pendingIceCandidates := [], appliedCandidates := [],
               dataChannel := some "open" }),
       List.mem_singleton_self _, rfl⟩⟩

/-- Witness for C8 at a one-peer registry with an open channel and at
the empty registry with an open relay link. -/
theorem C8_connections_and_status_witness :
    ((([("q", { remoteDescription := none, localDescription := none,
                pendingIceCandidates := [], appliedCandidates := [],
                dataChannel := some "open" })] : WebRTC.PeerMap).map Prod.fst).Nodup)
  ∧ WebRTC.updateStatus
      [("q", { remoteDescription := none, localDescription := none,
               pendingIceCandidates := [], appliedCandidates := [],
               dataChannel := some "open" })]
      true WebRTC.Status.disconnected = WebRTC.Status.connected
  ∧ WebRTC.updateStatus [] true WebRTC.Status.disconnected
      = WebRTC.Status.disconnected :=
  ⟨by decide,
   (C8_connections_and_status
      [("q", { remoteDescription := none, localDescription := none,
               pendingIceCandidates := [], appliedCandidates := [],
               dataChannel := some "open" })]
      true WebRTC.Status.disconnected (by decide)).2.1 (by decide),
   (C8_connections_and_status [] true WebRTC.Status.disconnected (by decide)).2.2.1
      rfl rfl⟩

/-- Witness for C10 at a state holding metadata for the sending peer and
two binary messages. -/
theorem C10_metadata_consumed_once_witness :
    List.lookup "p"
        ([("p", { name := "doc.txt", size := 3, mimeType := "text" })]
          : List (String × WebRTC.FileMetadataMsg))
      = some { name := "doc.txt", size := 3, mimeType := "text" }
  ∧ ({ name := "doc.txt", size := 3, mimeType := "text" } : WebRTC.FileMetadataMsg).name ≠ ""
  ∧ (WebRTC.handleIncomingData 7
        { fileMetadata := [("p", { name := "doc.txt", size := 3, mimeType := "text" })],
          receivedFiles := [], downloads := [] }
        (WebRTC.InData.blobData [0, 1]) "p").receivedFiles
      = [] ++ [{ name := "doc.txt", size := 2, timestamp := 7 }]
  ∧ List.lookup "p"
      (WebRTC.handleIncomingData 7
        { fileMetadata := [("p", { name := "doc.txt", size := 3, mimeType := "text" })],
          receivedFiles := [], downloads := [] }
        (WebRTC.InData.blobData [0, 1]) "p").fileMetadata = none :=
  ⟨rfl, by decide,
   (C10_metadata_consumed_once
      { fileMetadata := [("p", { name := "doc.txt", size := 3, mimeType := "text" })],
        receivedFiles := [], downloads := [] }
      "p" { name := "doc.txt", size := 3, mimeType := "text" } [0, 1] [4] 7 9
      rfl (by decide)).1,
   (C10_metadata_consumed_once
      { fileMetadata := [("p", { name := "doc.txt", size := 3, mimeType := "text" })],
        receivedFiles := [], downloads := [] }
      "p" { name := "doc.txt", size := 3, mimeType := "text" } [0, 1] [4] 7 9
      rfl (by decide)).2.2.1⟩
